import Mathlib

/-!
# Verification of the XBee Series 1 payload codec (`xbee1.py`)

A shallow embedding of the three codec operations of the `XBee1` class:

* `build_command`  — command encoding (`XBee1.build_command`),
* `split_response` — response decoding (`XBee1.split_response`),
* `parse_samples`  — I/O sample decoding (`XBee1.parse_samples`),

together with the static layout tables `api_commands` and `api_responses`.

Python byte strings are modelled as `List Nat` (one entry per byte,
`ord` of the character).  Python dictionaries that are built with
pairwise-distinct keys are modelled as association lists in insertion
order.  Python exceptions are modelled with `Except` and explicit error
types mirroring the exact exception raised by the code:

* `KeyError` raised for an unknown command / response id,
* the `KeyError` raised for a missing fixed-length field
  ("The expected field %s of length %d was not provided"),
* the `ValueError` raised for a wrong-length field
  ("The data provided was not %d bytes long"),
* the `ValueError`s "Response packet was shorter/longer than expected",
* `IndexError` raised by an out-of-range subscript such as `data[0]`
  on an empty string,
* `struct.error` raised by `struct.unpack("> h", buf)` when `buf` is
  not exactly two bytes.
-/

namespace XBee1

/-- A Python byte string: one natural number per byte. -/
abbrev Bytes := List Nat

/-- Python slice `data[i : i + n]` (never raises; clips at the end). -/
def pySlice (data : Bytes) (i n : Nat) : Bytes := (data.drop i).take n

/-- One command layout from the `api_commands` table: the `'id'` byte and
the `'order'` list paired with each parameter's declared length
(`some n` for a fixed length, `none` for the variable-length `None`). -/
structure CmdSpec where
  id : Nat
  fields : List (String × Option Nat)
deriving Repr, DecidableEq

/-- The `api_commands` table.  The `'order'` lists of the table contain no
reserved names (`'id'`, `'order'`), so the reserved-name skip inside the
encoding loop never fires and is not represented. -/
def api_commands : String → Option CmdSpec := fun cmd =>
  if cmd = "at" then
    some ⟨0x08, [("frame_id", some 1), ("command", some 2), ("parameter", none)]⟩
  else none

/-- One response layout from the `api_responses` table: the `'id'` entry
(the symbolic kind string) and the `'order'` list paired with lengths. -/
structure RespSpec where
  id : String
  fields : List (String × Option Nat)
deriving Repr, DecidableEq

/-- The `api_responses` table, keyed by identifier byte. -/
def api_responses : Nat → Option RespSpec := fun b =>
  if b = 0x8a then
    some ⟨"status", [("status", some 1)]⟩
  else if b = 0x88 then
    some ⟨"at_response",
      [("frame_id", some 1), ("command", some 2), ("status", some 1), ("parameter", none)]⟩
  else none

/-- Errors raised by `build_command`. -/
inductive BuildError
  /-- `KeyError` from `XBee1.api_commands[cmd]` with an unknown command. -/
  | unknownCommand (cmd : String)
  /-- `KeyError("The expected field %s of length %d was not provided")`. -/
  | missingField (name : String) (expected : Nat)
  /-- `ValueError("The data provided was not %d bytes long")`. -/
  | lengthMismatch (expected : Nat)
deriving Repr, DecidableEq

/-- The `for param in cmd_spec['order']` loop of `build_command`, processing
the fields in declared order and accumulating the packet.  Mirrors the
Python truthiness tests: `if data and cmd_spec[param] and len(data) !=
cmd_spec[param]` raises the length `ValueError` only when the value is
non-empty and the declared length is non-zero, and `if data: packet += data`
appends only a non-empty value. -/
def buildFields (kwargs : String → Option Bytes) :
    List (String × Option Nat) → Bytes → Except BuildError Bytes
  | [], packet => .ok packet
  | (param, flen) :: rest, packet =>
    match kwargs param, flen with
    | none, some n => .error (.missingField param n)
    | none, none => buildFields kwargs rest packet
    | some data, some n =>
      if data.length ≠ 0 ∧ n ≠ 0 ∧ data.length ≠ n then .error (.lengthMismatch n)
      else buildFields kwargs rest (if data.length ≠ 0 then packet ++ data else packet)
    | some data, none =>
      buildFields kwargs rest (if data.length ≠ 0 then packet ++ data else packet)

/-- `XBee1.build_command(cmd, **kwargs)`: start the packet with the layout's
`'id'` byte and append each field in declared order. -/
def build_command (cmd : String) (kwargs : String → Option Bytes) :
    Except BuildError Bytes :=
  match api_commands cmd with
  | none => .error (.unknownCommand cmd)
  | some spec => buildFields kwargs spec.fields [spec.id]

/-- Sum of the declared fixed-field lengths of a layout (a variable-length
field contributes nothing). -/
def fixedLen (fields : List (String × Option Nat)) : Nat :=
  (fields.map fun f => f.2.getD 0).sum

/-- Errors raised by `split_response`. -/
inductive SplitError
  /-- `IndexError` from `data[0]` on an empty payload (not caught by the
  `except KeyError` handler, so it propagates as an `IndexError`). -/
  | indexError
  /-- `KeyError("Unrecognized response packet with id byte %s")`. -/
  | keyError (idByte : Nat)
  /-- `ValueError("Response packet was shorter than expected")`. -/
  | valueErrorShort
  /-- `ValueError("Response packet was longer than expected")`. -/
  | valueErrorLong
deriving Repr, DecidableEq

/-- Result of `split_response`: the Python dict `{'id': kind, field: bytes,
...}`, modelled as the kind string plus the field entries in insertion
order (all keys are pairwise distinct). -/
structure SplitResult where
  id : String
  params : List (String × Bytes)
deriving Repr, DecidableEq

/-- The `for param in packet_spec['order']` loop of `split_response`:
fixed-length fields are sliced after an explicit bounds check; a
variable-length field takes the whole remainder, is stored only when
non-empty (the index advances only in that case), and ends the loop.
Returns the final index together with the collected entries. -/
def splitFields (data : Bytes) :
    List (String × Option Nat) → Nat → List (String × Bytes) →
    Except SplitError (Nat × List (String × Bytes))
  | [], index, info => .ok (index, info)
  | (param, some n) :: rest, index, info =>
    if index + n > data.length then .error .valueErrorShort
    else splitFields data rest (index + n) (info ++ [(param, pySlice data index n)])
  | (param, none) :: _, index, info =>
    let field := data.drop index
    if field ≠ [] then .ok (index + field.length, info ++ [(param, field)])
    else .ok (index, info)

/-- `XBee1.split_response(data)`: look up the layout by the identifier
byte `data[0]`, slice the fields from offset 1, and reject trailing
bytes left after the loop. -/
def split_response (data : Bytes) : Except SplitError SplitResult :=
  match data with
  | [] => .error .indexError
  | b :: _ =>
    match api_responses b with
    | none => .error (.keyError b)
    | some spec =>
      match splitFields data spec.fields 1 [] with
      | .error e => .error e
      | .ok (index, info) =>
        if index < data.length then .error .valueErrorLong
        else .ok ⟨spec.id, info⟩

/-- One channel reading inside an I/O sample dict: a digital line state
or an analog conversion value. -/
inductive IOVal
  | digital (b : Bool)
  | analog (v : Int)
deriving Repr, DecidableEq

/-- One decoded I/O sample: the Python dict keyed `dio-<n>` / `adc-<n>`,
as an association list in insertion order (keys pairwise distinct). -/
abbrev IOSample := List (String × IOVal)

/-- Errors raised by `parse_samples`. -/
inductive SampleError
  /-- `IndexError` from an out-of-range subscript (`data[0]`,
  `sources_raw[1]`, `values[0]`, `values[1]`). -/
  | indexError
  /-- `struct.error` from `struct.unpack("> h", buf)` when `buf` is not
  exactly two bytes long. -/
  | structError
deriving Repr, DecidableEq

/-- `struct.unpack("> h", bytes([b0, b1]))[0]`: the two bytes read as a
big-endian signed 16-bit integer. -/
def toSigned16 (u : Nat) : Int := if u < 32768 then (u : Int) else (u : Int) - 65536

/-- The analog reading stored for one enabled ADC line: the big-endian
signed 16-bit value of the two record bytes, masked with `& 0x3FF`
(Python's two's-complement bitwise and, i.e. `Int.land`). -/
def adcValue (b0 b1 : Nat) : Int := Int.land (toSigned16 (b0 * 256 + b1)) 1023

/-- One digital line read out of the (at most two) digital-value bytes:
line 8 tests bit `dio - 8` of `values[0]`, lines 0–7 test bit `dio` of
`values[1]`; a missing byte is an `IndexError`. -/
def decodeDio (values : Bytes) (dio : Nat) : Except SampleError Bool :=
  if dio > 7 then
    match values with
    | [] => .error .indexError
    | v0 :: _ => .ok (v0 &&& 2 ^ (dio - 8) != 0)
  else
    match values with
    | _ :: v1 :: _ => .ok (v1 &&& 2 ^ dio != 0)
    | _ => .error .indexError

/-- The `for dio in dio_enabled` loop: one `dio-<n>` entry per enabled
digital line, in list order. -/
def decodeDios (values : Bytes) : List Nat → Except SampleError (List (String × IOVal))
  | [] => .ok []
  | dio :: rest =>
    match decodeDio values dio with
    | .error e => .error e
    | .ok b =>
      match decodeDios values rest with
      | .error e => .error e
      | .ok tail => .ok (("dio-" ++ toString dio, .digital b) :: tail)

/-- The `for adc in adc_enabled` loop: for each enabled analog line in
list order, slice two bytes at the cursor, unpack and mask them, and
advance the cursor by two.  Returns the entries and the final cursor. -/
def decodeAdcs (data : Bytes) :
    List Nat → Nat → Except SampleError (List (String × IOVal) × Nat)
  | [], byte_pos => .ok ([], byte_pos)
  | adc :: rest, byte_pos =>
    match pySlice data byte_pos 2 with
    | [b0, b1] =>
      match decodeAdcs data rest (byte_pos + 2) with
      | .error e => .error e
      | .ok (tail, pos) =>
        .ok (("adc-" ++ toString adc, .analog (adcValue b0 b1)) :: tail, pos)
    | _ => .error .structError

/-- The `for i in range(0, len_samples)` loop of `parse_samples`: decode
`count` sample records starting at `byte_pos`.  When any digital line is
enabled the record starts with the two digital-value bytes (sliced with
`data[byte_pos:byte_pos+2]`, which clips silently) and the cursor moves
by two; then each enabled analog line consumes two bytes. -/
def parseRecords (data : Bytes) (dios adcs : List Nat) :
    Nat → Nat → Except SampleError (List IOSample)
  | 0, _ => .ok []
  | count + 1, byte_pos =>
    match (if dios = [] then .ok ([], byte_pos)
           else
             match decodeDios (pySlice data byte_pos 2) dios with
             | .error e => .error e
             | .ok entries => .ok (entries, byte_pos + 2) :
            Except SampleError (List (String × IOVal) × Nat)) with
    | .error e => .error e
    | .ok (dioEntries, pos1) =>
      match (if adcs = [] then .ok ([], pos1) else decodeAdcs data adcs pos1) with
      | .error e => .error e
      | .ok (adcEntries, pos2) =>
        match parseRecords data dios adcs count pos2 with
        | .error e => .error e
        | .ok rest => .ok ((dioEntries ++ adcEntries) :: rest)

/-- The `dio_enabled` list built from the two mask bytes: digital lines
0–7 from the bits of the low mask byte `s1` (`sources_raw[1]`), then
line 8 from bit 0 of the high mask byte `s0` (`sources_raw[0]`). -/
def dio_enabled (s0 s1 : Nat) : List Nat :=
  (List.range 8).filter (fun dio => s1 &&& 2 ^ dio != 0) ++
    (if s0 &&& 1 != 0 then [8] else [])

/-- The `adc_enabled` list built from the high mask byte `s0`: analog
lines 0–5 from bits 1–6. -/
def adc_enabled (s0 : Nat) : List Nat :=
  (List.range 6).filter (fun adc => s0 &&& 2 ^ (adc + 1) != 0)

/-- `XBee1.parse_samples(data)`: read the sample count from byte 0 and the
enabled-channel mask from bytes 1–2 (`sources_raw[1]`, the low byte, gives
digital lines 0–7; bit 0 of `sources_raw[0]` gives digital line 8 and its
bits 1–6 give analog lines 0–5), then decode the sample records from
byte 3 on. -/
def parse_samples (data : Bytes) : Except SampleError (List IOSample) :=
  match data with
  | [] => .error .indexError
  | len_raw :: _ =>
    match pySlice data 1 2 with
    | [s0, s1] => parseRecords data (dio_enabled s0 s1) (adc_enabled s0) len_raw 3
    | _ => .error .indexError

/-! ## Helper lemmas -/

theorem pySlice_length {data : Bytes} {i n : Nat} (h : i + n ≤ data.length) :
    (pySlice data i n).length = n := by
  simp only [pySlice, List.length_take, List.length_drop]
  omega

theorem pySlice_eq_pair {data : Bytes} {i : Nat} (h : i + 2 ≤ data.length) :
    ∃ b0 b1, pySlice data i 2 = [b0, b1] :=
  List.length_eq_two.mp (pySlice_length h)

theorem splitFields_fixed_ok {data : Bytes} {param : String} {n : Nat}
    {rest : List (String × Option Nat)} {index : Nat} {info : List (String × Bytes)}
    (h : index + n ≤ data.length) :
    splitFields data ((param, some n) :: rest) index info =
      splitFields data rest (index + n) (info ++ [(param, pySlice data index n)]) := by
  simp only [splitFields]
  rw [if_neg (by omega)]

theorem splitFields_fixed_short {data : Bytes} {param : String} {n : Nat}
    {rest : List (String × Option Nat)} {index : Nat} {info : List (String × Bytes)}
    (h : data.length < index + n) :
    splitFields data ((param, some n) :: rest) index info = .error .valueErrorShort := by
  simp only [splitFields]
  rw [if_pos (by omega)]

theorem splitFields_var {data : Bytes} {param : String}
    {rest : List (String × Option Nat)} {index : Nat} {info : List (String × Bytes)} :
    splitFields data ((param, none) :: rest) index info =
      if data.drop index = [] then .ok (index, info)
      else .ok (index + (data.drop index).length, info ++ [(param, data.drop index)]) := by
  simp only [splitFields]
  by_cases hd : data.drop index = []
  · rw [if_neg (by simp [hd]), if_pos hd]
  · rw [if_pos hd, if_neg hd]

theorem buildFields_prefix {kwargs : String → Option Bytes} :
    ∀ (fields : List (String × Option Nat)) (acc p : Bytes),
      buildFields kwargs fields acc = .ok p → ∃ t, p = acc ++ t := by
  intro fields
  induction fields with
  | nil =>
    intro acc p h
    simp only [buildFields, Except.ok.injEq] at h
    exact ⟨[], by simp [h]⟩
  | cons f rest ih =>
    intro acc p h
    obtain ⟨param, flen⟩ := f
    cases hk : kwargs param with
    | none =>
      cases flen with
      | none =>
        simp only [buildFields, hk] at h
        exact ih acc p h
      | some n =>
        simp only [buildFields, hk] at h
        cases h
    | some data =>
      have hsplit : (if data.length ≠ 0 then acc ++ data else acc) =
          acc ++ (if data.length ≠ 0 then data else []) := by
        split <;> simp
      cases flen with
      | none =>
        simp only [buildFields, hk, hsplit] at h
        obtain ⟨t, ht⟩ := ih _ p h
        exact ⟨(if data.length ≠ 0 then data else []) ++ t, by rw [ht, List.append_assoc]⟩
      | some n =>
        simp only [buildFields, hk, hsplit] at h
        by_cases hc : data.length ≠ 0 ∧ n ≠ 0 ∧ data.length ≠ n
        · rw [if_pos hc] at h
          cases h
        · rw [if_neg hc] at h
          obtain ⟨t, ht⟩ := ih _ p h
          exact ⟨(if data.length ≠ 0 then data else []) ++ t, by rw [ht, List.append_assoc]⟩

theorem api_commands_at :
    api_commands "at" =
      some ⟨0x08, [("frame_id", some 1), ("command", some 2), ("parameter", none)]⟩ := rfl

theorem api_responses_8a : api_responses 0x8a = some ⟨"status", [("status", some 1)]⟩ := rfl

theorem api_responses_88 :
    api_responses 0x88 = some ⟨"at_response",
      [("frame_id", some 1), ("command", some 2), ("status", some 1), ("parameter", none)]⟩ := rfl

/-! ## Claims -/

/-- **C1**: for every payload whose leading byte `0x88` selects the
`at_response` layout (and which is long enough for the fixed fields),
`split_response` slices `frame_id` (1 byte), `command` (2 bytes) and
`status` (1 byte) in declared order from offset 1 and stores the
remaining bytes under `"parameter"` exactly when that remainder is
non-empty; concretely, decoding `88 44 4D 59 01 41 42 43 44 45 46`
yields `{id: "at_response", frame_id: "D", command: "MY", status: 0x01,
parameter: "ABCDEF"}`. -/
theorem c1_at_response_decoding :
    (∀ b1 b2 b3 b4 : Nat, ∀ rest : Bytes,
      split_response (0x88 :: b1 :: b2 :: b3 :: b4 :: rest) =
        .ok ⟨"at_response",
          [("frame_id", [b1]), ("command", [b2, b3]), ("status", [b4])] ++
            (if rest = [] then [] else [("parameter", rest)])⟩) ∧
    split_response [0x88, 0x44, 0x4D, 0x59, 0x01, 0x41, 0x42, 0x43, 0x44, 0x45, 0x46] =
      .ok ⟨"at_response",
        [("frame_id", [0x44]), ("command", [0x4D, 0x59]), ("status", [0x01]),
         ("parameter", [0x41, 0x42, 0x43, 0x44, 0x45, 0x46])]⟩ := by
  constructor
  · intro b1 b2 b3 b4 rest
    have hlen : (0x88 :: b1 :: b2 :: b3 :: b4 :: rest : Bytes).length = 5 + rest.length := by
      simp [List.length_cons]
      omega
    simp only [split_response, api_responses_88]
    rw [splitFields_fixed_ok (by omega), splitFields_fixed_ok (by omega),
        splitFields_fixed_ok (by omega), splitFields_var]
    have hdrop : (0x88 :: b1 :: b2 :: b3 :: b4 :: rest : Bytes).drop (1 + 1 + 2 + 1) = rest := rfl
    rw [hdrop]
    by_cases hrest : rest = []
    · subst hrest
      rfl
    · rw [if_neg hrest]
      have : ¬ (1 + 1 + 2 + 1 + rest.length <
          (0x88 :: b1 :: b2 :: b3 :: b4 :: rest : Bytes).length) := by omega
      simp only [this, if_false, if_neg this]
      simp [pySlice, hrest]
  · rfl

/-- **C7 counterexample**: decoding the empty payload does fail, but with
the uncaught `IndexError` raised by `data[0]`, not with the
`ValueError("Response packet was shorter than expected")` that the spec's
`Truncated` names. -/
theorem c7_counterexample :
    split_response ([] : Bytes) = .error .indexError ∧
      SplitError.indexError ≠ SplitError.valueErrorShort :=
  ⟨rfl, by decide⟩

/-- **C7 amended**: decoding an empty payload always fails (no result is
ever returned), but the failure is the `IndexError` from the `data[0]`
subscript — which the `except KeyError` handler does not catch — rather
than the shorter-than-expected `ValueError`. -/
theorem c7_amended :
    split_response ([] : Bytes) = .error .indexError ∧
      ∀ r, split_response ([] : Bytes) ≠ .ok r := by
  exact ⟨rfl, fun r h => by cases h⟩

/-- **C4**: the sample payload `01 01 00 05` declares one sample with
digital line 8 enabled, so its record area must hold `1 × 2` bytes, but
only one byte (`05`) is present (`4 < 3 + 1 * 2`).  The code does not
fail: `data[byte_pos:byte_pos+2]` clips silently, `ord(values[0]) & 1`
reads the single byte, and one sample `{dio-8: True}` is returned.  This
contradicts the claimed `Truncated` failure. -/
theorem c4_silent_truncation :
    ([1, 1, 0, 5] : Bytes).length < 3 + 1 * 2 ∧
      parse_samples [1, 1, 0, 5] = .ok [[("dio-8", IOVal.digital true)]] :=
  ⟨by decide, rfl⟩

/-- **C3 counterexample**: supplying the fixed-length field `frame_id`
(declared length 1) as a present-but-empty value does not raise
`LengthMismatch`: the Python truthiness test `if data and ...` skips both
the length check and the append, and encoding succeeds with the field's
bytes simply missing from the output. -/
theorem c3_counterexample :
    build_command "at"
      (fun s => if s = "frame_id" then some [] else
        if s = "command" then some [77, 89] else none) = .ok [8, 77, 89] := rfl

/-- **C3 amended**: encoding the (only) known command fails with
`LengthMismatch` when a fixed-length field is supplied *non-empty* with
the wrong length, provided every earlier field in declared order passes
(is supplied with its declared length or supplied empty); a
present-but-empty fixed-length value is silently omitted instead of
failing, and an earlier missing fixed-length field fails with
`MissingField` first. -/
theorem c3_amended (kwargs : String → Option Bytes) (v : Bytes) :
    (kwargs "frame_id" = some v → v ≠ [] → v.length ≠ 1 →
      build_command "at" kwargs = .error (.lengthMismatch 1)) ∧
    (∀ w, kwargs "frame_id" = some v → (v = [] ∨ v.length = 1) →
      kwargs "command" = some w → w ≠ [] → w.length ≠ 2 →
      build_command "at" kwargs = .error (.lengthMismatch 2)) := by
  constructor
  · intro hf hne hlen
    simp only [build_command, api_commands_at, buildFields, hf]
    rw [if_pos ⟨by simpa using hne, by omega, hlen⟩]
  · intro w hf hv hc hwne hwlen
    have hvc : ¬ (v.length ≠ 0 ∧ 1 ≠ 0 ∧ v.length ≠ 1) := by
      rcases hv with hv | hv <;> simp [hv]
    simp only [build_command, api_commands_at, buildFields, hf, hc]
    rw [if_neg hvc, if_pos ⟨by simpa using hwne, by omega, hwlen⟩]

/-- **C3 witness**: concrete instances of both conjuncts of the amended
claim. -/
theorem c3_witness :
    build_command "at"
        (fun s => if s = "frame_id" then some [1, 2] else none) =
      .error (.lengthMismatch 1) ∧
    build_command "at"
        (fun s => if s = "frame_id" then some [7] else
          if s = "command" then some [1, 2, 3] else none) =
      .error (.lengthMismatch 2) :=
  ⟨(c3_amended _ [1, 2]).1 rfl (by decide) (by decide),
   (c3_amended _ [7]).2 [1, 2, 3] rfl (Or.inr rfl) rfl (by decide) (by decide)⟩

/-- **C5 counterexample**: with `frame_id` supplied two bytes long and
`command` (fixed, length 2) absent, encoding fails with the
`LengthMismatch` `ValueError` for `frame_id`, not with `MissingField`
for `command` — the claim's "always fails with MissingField" does not
hold for every mapping missing a fixed-length field. -/
theorem c5_counterexample :
    build_command "at"
      (fun s => if s = "frame_id" then some [65, 66] else none) =
      .error (.lengthMismatch 1) := rfl

/-- **C5 amended**: encoding the known command fails with
`MissingField(name, expected_length)` for the first absent fixed-length
field in declared order, provided every earlier field passes its checks
(an earlier non-empty wrong-length value fails with `LengthMismatch`
first); no output is produced in either case. -/
theorem c5_amended (kwargs : String → Option Bytes) :
    (kwargs "frame_id" = none →
      build_command "at" kwargs = .error (.missingField "frame_id" 1)) ∧
    (∀ v, kwargs "frame_id" = some v → (v = [] ∨ v.length = 1) →
      kwargs "command" = none →
      build_command "at" kwargs = .error (.missingField "command" 2)) := by
  constructor
  · intro hf
    simp only [build_command, api_commands_at, buildFields, hf]
  · intro v hf hv hc
    have hvc : ¬ (v.length ≠ 0 ∧ 1 ≠ 0 ∧ v.length ≠ 1) := by
      rcases hv with hv | hv <;> simp [hv]
    simp only [build_command, api_commands_at, buildFields, hf, hc]
    rw [if_neg hvc]

/-- **C5 witness**: concrete instances of both conjuncts of the amended
claim. -/
theorem c5_witness :
    build_command "at" (fun _ => none) = .error (.missingField "frame_id" 1) ∧
    build_command "at" (fun s => if s = "frame_id" then some [68] else none) =
      .error (.missingField "command" 2) :=
  ⟨(c5_amended _).1 rfl, (c5_amended _).2 [68] rfl (Or.inr rfl) rfl⟩

/-- **C6**: for every payload whose leading byte selects a known response
layout, a payload shorter than `1 +` the sum of the declared fixed-field
lengths fails with the shorter-than-expected `ValueError` (`Truncated`),
and — when the layout's last field is fixed-length — a payload longer
than that bound fails with the longer-than-expected `ValueError`
(`Overlong`). -/
theorem c6_truncated_overlong :
    (∀ (b : Nat) (spec : RespSpec) (rest : Bytes), api_responses b = some spec →
      (b :: rest : Bytes).length < 1 + fixedLen spec.fields →
      split_response (b :: rest) = .error .valueErrorShort) ∧
    (∀ (b : Nat) (spec : RespSpec) (rest : Bytes), api_responses b = some spec →
      (∀ lf ∈ spec.fields.getLast?, lf.2 ≠ none) →
      1 + fixedLen spec.fields < (b :: rest : Bytes).length →
      split_response (b :: rest) = .error .valueErrorLong) := by
  constructor
  · intro b spec rest hspec hlen
    by_cases hb : b = 0x8a
    · subst hb
      rw [api_responses_8a, Option.some.injEq] at hspec
      subst hspec
      simp only [fixedLen, List.map, Option.getD, List.sum_cons, List.sum_nil,
        List.length_cons] at hlen
      have : rest = [] := by
        cases rest with
        | nil => rfl
        | cons x xs => simp only [List.length_cons] at hlen; omega
      subst this
      rfl
    · by_cases hb' : b = 0x88
      · subst hb'
        rw [api_responses_88, Option.some.injEq] at hspec
        subst hspec
        simp only [fixedLen, List.map, Option.getD, List.sum_cons, List.sum_nil,
          List.length_cons] at hlen
        rcases rest with _ | ⟨x1, _ | ⟨x2, _ | ⟨x3, _ | ⟨x4, tail⟩⟩⟩⟩
        · rfl
        · rfl
        · rfl
        · rfl
        · simp only [List.length_cons] at hlen; omega
      · simp [api_responses, hb, hb'] at hspec
  · intro b spec rest hspec hlast hlen
    by_cases hb : b = 0x8a
    · subst hb
      rw [api_responses_8a, Option.some.injEq] at hspec
      subst hspec
      simp only [fixedLen, List.map, Option.getD, List.sum_cons, List.sum_nil,
        List.length_cons] at hlen
      rcases rest with _ | ⟨x1, _ | ⟨x2, tail⟩⟩
      · simp only [List.length_nil] at hlen; omega
      · simp only [List.length_cons, List.length_nil] at hlen; omega
      · simp only [split_response, api_responses_8a]
        rw [splitFields_fixed_ok (by simp only [List.length_cons]; omega)]
        simp only [splitFields]
        rw [if_pos (by simp only [List.length_cons]; omega)]
    · by_cases hb' : b = 0x88
      · subst hb'
        rw [api_responses_88, Option.some.injEq] at hspec
        subst hspec
        have hmem : ("parameter", (none : Option Nat)) ∈
            ([("frame_id", some 1), ("command", some 2), ("status", some 1),
              ("parameter", none)] : List (String × Option Nat)).getLast? := by
          rfl
        exact absurd rfl (hlast _ hmem)
      · simp [api_responses, hb, hb'] at hspec

/-- **C6 witness**: a one-byte `status` payload is short, a four-byte one
is long. -/
theorem c6_witness :
    split_response [0x8a] = .error .valueErrorShort ∧
      split_response [0x8a, 0, 0, 0] = .error .valueErrorLong :=
  ⟨c6_truncated_overlong.1 0x8a ⟨"status", [("status", some 1)]⟩ [] rfl (by decide),
   c6_truncated_overlong.2 0x8a ⟨"status", [("status", some 1)]⟩ [0, 0, 0] rfl
     (by intro lf hlf
         simp only [List.getLast?, Option.mem_def, Option.some.injEq] at hlf
         subst hlf
         simp)
     (by decide)⟩

/-- **C8**: encoding any command known to the layout table starts the
produced payload with exactly the identifier byte declared for it, and
that identifier byte determines the command uniquely within the table —
the kind/identifier association declared in the table round-trips
through the encoder. -/
theorem c8_identifier_roundtrip (cmd : String) (spec : CmdSpec)
    (kwargs : String → Option Bytes) (packet : Bytes)
    (hspec : api_commands cmd = some spec)
    (hbuild : build_command cmd kwargs = .ok packet) :
    packet.head? = some spec.id ∧
      ∀ cmd2 spec2, api_commands cmd2 = some spec2 → spec2.id = spec.id → cmd2 = cmd := by
  have hcmd : cmd = "at" := by
    by_cases h : cmd = "at"
    · exact h
    · simp [api_commands, h] at hspec
  subst hcmd
  rw [api_commands_at, Option.some.injEq] at hspec
  subst hspec
  simp only [build_command, api_commands_at] at hbuild
  obtain ⟨t, ht⟩ := buildFields_prefix _ _ _ hbuild
  subst ht
  constructor
  · rfl
  · intro cmd2 spec2 h2 hid
    by_cases hc2 : cmd2 = "at"
    · exact hc2
    · simp [api_commands, hc2] at h2

/-- **C8 witness**: a successful concrete encoding of `"at"` starts with
the declared identifier `0x08`, which maps back to `"at"` alone. -/
theorem c8_witness :
    ([0x08, 43, 77, 89] : Bytes).head? =
        some (⟨0x08, [("frame_id", some 1), ("command", some 2), ("parameter", none)]⟩ :
          CmdSpec).id ∧
      ∀ cmd2 spec2, api_commands cmd2 = some spec2 →
        spec2.id = (⟨0x08, [("frame_id", some 1), ("command", some 2), ("parameter", none)]⟩ :
          CmdSpec).id → cmd2 = "at" :=
  c8_identifier_roundtrip "at"
    ⟨0x08, [("frame_id", some 1), ("command", some 2), ("parameter", none)]⟩
    (fun s => if s = "frame_id" then some [43] else
      if s = "command" then some [77, 89] else none)
    [0x08, 43, 77, 89] rfl rfl

/-- **C10**: every successful `split_response` carries the matched
layout's symbolic kind under the `'id'` key, and each fixed-length field
of that layout is present with a byte value of exactly its declared
length. -/
theorem c10_decoded_frame_invariant (data : Bytes) (r : SplitResult)
    (h : split_response data = .ok r) :
    ∃ b spec, data.head? = some b ∧ api_responses b = some spec ∧ r.id = spec.id ∧
      ∀ name n, (name, some n) ∈ spec.fields →
        ∃ v, r.params.lookup name = some v ∧ v.length = n := by
  cases data with
  | nil => cases h
  | cons b rest =>
    by_cases hb : b = 0x8a
    · subst hb
      refine ⟨0x8a, ⟨"status", [("status", some 1)]⟩, rfl, api_responses_8a, ?_⟩
      simp only [split_response, api_responses_8a] at h
      by_cases h1 : 1 + 1 ≤ (0x8a :: rest : Bytes).length
      · rw [splitFields_fixed_ok h1] at h
        simp only [splitFields] at h
        by_cases hover : 1 + 1 < (0x8a :: rest : Bytes).length
        · rw [if_pos hover] at h
          cases h
        · rw [if_neg hover] at h
          simp only [Except.ok.injEq] at h
          subst h
          refine ⟨rfl, ?_⟩
          intro name n hmem
          simp only [List.mem_singleton, Prod.mk.injEq, Option.some.injEq] at hmem
          obtain ⟨rfl, rfl⟩ := hmem
          exact ⟨pySlice (0x8a :: rest) 1 1, by simp [List.lookup], pySlice_length h1⟩
      · rw [splitFields_fixed_short (by omega)] at h
        cases h
    · by_cases hb' : b = 0x88
      · subst hb'
        refine ⟨0x88, ⟨"at_response",
          [("frame_id", some 1), ("command", some 2), ("status", some 1),
           ("parameter", none)]⟩, rfl, api_responses_88, ?_⟩
        simp only [split_response, api_responses_88] at h
        by_cases h1 : 1 + 1 ≤ (0x88 :: rest : Bytes).length
        · rw [splitFields_fixed_ok h1] at h
          by_cases h2 : 1 + 1 + 2 ≤ (0x88 :: rest : Bytes).length
          · rw [splitFields_fixed_ok h2] at h
            by_cases h3 : 1 + 1 + 2 + 1 ≤ (0x88 :: rest : Bytes).length
            · rw [splitFields_fixed_ok h3] at h
              rw [splitFields_var] at h
              have hfieldlen :
                  ∀ name n, (name, some n) ∈
                    ([("frame_id", some 1), ("command", some 2), ("status", some 1),
                      ("parameter", none)] : List (String × Option Nat)) →
                  ∀ tailp : List (String × Bytes),
                  ∃ v, (([( "frame_id", pySlice (0x88 :: rest) 1 1),
                         ("command", pySlice (0x88 :: rest) (1 + 1) 2),
                         ("status", pySlice (0x88 :: rest) (1 + 1 + 2) 1)] ++ tailp :
                      List (String × Bytes)).lookup name) = some v ∧ v.length = n := by
                intro name n hmem tailp
                simp only [List.mem_cons, List.mem_singleton, Prod.mk.injEq,
                  Option.some.injEq, List.not_mem_nil, or_false] at hmem
                rcases hmem with ⟨rfl, rfl⟩ | ⟨rfl, rfl⟩ | ⟨rfl, rfl⟩ | ⟨_, hfalse⟩
                · exact ⟨_, by simp [List.lookup], pySlice_length h1⟩
                · exact ⟨_, by simp [List.lookup], pySlice_length h2⟩
                · exact ⟨_, by simp [List.lookup], pySlice_length h3⟩
                · cases hfalse
              by_cases hdrop : (0x88 :: rest : Bytes).drop (1 + 1 + 2 + 1) = []
              · rw [if_pos hdrop] at h
                have hle : (0x88 :: rest : Bytes).length ≤ 1 + 1 + 2 + 1 := by
                  have := List.drop_eq_nil_iff.mp hdrop
                  omega
                simp only [] at h
                rw [if_neg (by omega)] at h
                simp only [Except.ok.injEq] at h
                subst h
                refine ⟨rfl, ?_⟩
                intro name n hmem
                simpa using hfieldlen name n hmem []
              · rw [if_neg hdrop] at h
                have hlen : ((0x88 :: rest : Bytes).drop (1 + 1 + 2 + 1)).length =
                    (0x88 :: rest : Bytes).length - (1 + 1 + 2 + 1) :=
                  List.length_drop _ _
                simp only [] at h
                rw [if_neg (by omega)] at h
                simp only [Except.ok.injEq] at h
                subst h
                refine ⟨rfl, ?_⟩
                intro name n hmem
                simpa using hfieldlen name n hmem
                  [("parameter", (0x88 :: rest : Bytes).drop (1 + 1 + 2 + 1))]
            · rw [splitFields_fixed_short (by omega)] at h
              cases h
          · rw [splitFields_fixed_short (by omega)] at h
            cases h
        · rw [splitFields_fixed_short (by omega)] at h
          cases h
      · simp only [split_response] at h
        rw [show api_responses b = none by simp [api_responses, hb, hb']] at h
        cases h

/-- **C10 witness**: the invariant instantiated on a concrete decoded
`at_response` payload without parameter bytes. -/
theorem c10_witness :
    ∃ b spec, ([0x88, 68, 77, 89, 1] : Bytes).head? = some b ∧
      api_responses b = some spec ∧
      (⟨"at_response",
        [("frame_id", [68]), ("command", [77, 89]), ("status", [1])]⟩ : SplitResult).id =
        spec.id ∧
      ∀ name n, (name, some n) ∈ spec.fields →
        ∃ v, (⟨"at_response",
          [("frame_id", [68]), ("command", [77, 89]), ("status", [1])]⟩ :
            SplitResult).params.lookup name = some v ∧ v.length = n :=
  c10_decoded_frame_invariant [0x88, 68, 77, 89, 1]
    ⟨"at_response", [("frame_id", [68]), ("command", [77, 89]), ("status", [1])]⟩ rfl

theorem decodeDio_ok (v0 v1 : Nat) (t : Bytes) (dio : Nat) :
    ∃ b, decodeDio (v0 :: v1 :: t) dio = .ok b := by
  unfold decodeDio
  by_cases h : dio > 7
  · rw [if_pos h]
    exact ⟨_, rfl⟩
  · rw [if_neg h]
    exact ⟨_, rfl⟩

theorem decodeDios_ok (v0 v1 : Nat) (t : Bytes) (dios : List Nat) :
    ∃ entries, decodeDios (v0 :: v1 :: t) dios = .ok entries ∧
      entries.map Prod.fst = dios.map (fun d => "dio-" ++ toString d) ∧
      ∀ e ∈ entries, ∃ b, e.2 = IOVal.digital b := by
  induction dios with
  | nil => exact ⟨[], rfl, rfl, by simp⟩
  | cons d rest ih =>
    obtain ⟨b, hb⟩ := decodeDio_ok v0 v1 t d
    obtain ⟨entries, he, hkeys, hvals⟩ := ih
    refine ⟨("dio-" ++ toString d, .digital b) :: entries, ?_, ?_, ?_⟩
    · simp only [decodeDios, hb, he]
    · simp [hkeys]
    · intro e hew
      rcases List.mem_cons.mp hew with rfl | hmem
      · exact ⟨b, rfl⟩
      · exact hvals e hmem

theorem decodeAdcs_ok (data : Bytes) (adcs : List Nat) :
    ∀ pos : Nat, pos + 2 * adcs.length ≤ data.length →
    ∃ entries, decodeAdcs data adcs pos = .ok (entries, pos + 2 * adcs.length) ∧
      entries.map Prod.fst = adcs.map (fun a => "adc-" ++ toString a) ∧
      ∀ e ∈ entries, ∃ v, e.2 = IOVal.analog v := by
  induction adcs with
  | nil =>
    intro pos h
    exact ⟨[], by simp [decodeAdcs], rfl, by simp⟩
  | cons a rest ih =>
    intro pos h
    have hlen : pos + 2 ≤ data.length := by
      simp only [List.length_cons] at h
      omega
    obtain ⟨b0, b1, hslice⟩ := pySlice_eq_pair hlen
    have hrec : pos + 2 + 2 * rest.length ≤ data.length := by
      simp only [List.length_cons] at h
      omega
    obtain ⟨entries, he, hkeys, hvals⟩ := ih (pos + 2) hrec
    refine ⟨("adc-" ++ toString a, .analog (adcValue b0 b1)) :: entries, ?_, ?_, ?_⟩
    · simp only [decodeAdcs, hslice, he]
      have harith : pos + 2 + 2 * rest.length = pos + 2 * (a :: rest).length := by
        simp only [List.length_cons]
        ring
      rw [harith]
    · simp [hkeys]
    · intro e hew
      rcases List.mem_cons.mp hew with rfl | hmem
      · exact ⟨_, rfl⟩
      · exact hvals e hmem

theorem parseRecords_ok (data : Bytes) (dios adcs : List Nat) :
    ∀ count pos : Nat,
      pos + count * ((if dios = [] then 0 else 2) + 2 * adcs.length) ≤ data.length →
      ∃ samples, parseRecords data dios adcs count pos = .ok samples ∧
        samples.length = count ∧
        ∀ s ∈ samples, ∃ dpart apart, s = dpart ++ apart ∧
          dpart.map Prod.fst = dios.map (fun d => "dio-" ++ toString d) ∧
          apart.map Prod.fst = adcs.map (fun a => "adc-" ++ toString a) ∧
          (∀ e ∈ dpart, ∃ b, e.2 = IOVal.digital b) ∧
          (∀ e ∈ apart, ∃ v, e.2 = IOVal.analog v) := by
  intro count
  induction count with
  | zero =>
    intro pos h
    exact ⟨[], rfl, rfl, by simp⟩
  | succ n ih =>
    intro pos h
    have hrec1 : (if dios = [] then 0 else 2) + 2 * adcs.length ≤
        (n + 1) * ((if dios = [] then 0 else 2) + 2 * adcs.length) :=
      Nat.le_mul_of_pos_left _ (by omega)
    have hstep : ∃ (dioEntries : List (String × IOVal)) (pos1 : Nat),
        (if dios = [] then (.ok ([], pos) : Except SampleError (List (String × IOVal) × Nat))
         else match decodeDios (pySlice data pos 2) dios with
           | .error e => .error e
           | .ok entries => .ok (entries, pos + 2)) = .ok (dioEntries, pos1) ∧
        pos1 = pos + (if dios = [] then 0 else 2) ∧
        dioEntries.map Prod.fst = dios.map (fun d => "dio-" ++ toString d) ∧
        ∀ e ∈ dioEntries, ∃ b, e.2 = IOVal.digital b := by
      by_cases hdios : dios = []
      · subst hdios
        exact ⟨[], pos, by simp, by simp, rfl, by simp⟩
      · have hpos2 : pos + 2 ≤ data.length := by
          rw [if_neg hdios] at h hrec1
          omega
        obtain ⟨b0, b1, hslice⟩ := pySlice_eq_pair hpos2
        obtain ⟨entries, he, hkeys, hvals⟩ := decodeDios_ok b0 b1 [] dios
        refine ⟨entries, pos + 2, ?_, by rw [if_neg hdios], hkeys, hvals⟩
        rw [if_neg hdios, hslice, he]
    obtain ⟨dioEntries, pos1, hstep1, hpos1, hdkeys, hdvals⟩ := hstep
    have hpos2 : pos1 + 2 * adcs.length ≤ data.length := by
      rw [hpos1]
      by_cases hdios : dios = [] <;> simp only [hdios, if_pos, if_neg, if_true, if_false] at h hrec1 ⊢ <;> omega
    have hadc : ∃ adcEntries,
        (if adcs = [] then (.ok ([], pos1) : Except SampleError (List (String × IOVal) × Nat))
         else decodeAdcs data adcs pos1) = .ok (adcEntries, pos1 + 2 * adcs.length) ∧
        adcEntries.map Prod.fst = adcs.map (fun a => "adc-" ++ toString a) ∧
        ∀ e ∈ adcEntries, ∃ v, e.2 = IOVal.analog v := by
      by_cases hadcs : adcs = []
      · subst hadcs
        exact ⟨[], by simp, rfl, by simp⟩
      · obtain ⟨entries, he, hkeys, hvals⟩ := decodeAdcs_ok data adcs pos1 hpos2
        exact ⟨entries, by rw [if_neg hadcs, he], hkeys, hvals⟩
    obtain ⟨adcEntries, hadc1, hakeys, havals⟩ := hadc
    have hnext : pos1 + 2 * adcs.length +
        n * ((if dios = [] then 0 else 2) + 2 * adcs.length) ≤ data.length := by
      rw [hpos1]
      rw [Nat.succ_mul] at h
      omega
    obtain ⟨samples, hs, hslen, hsprop⟩ := ih (pos1 + 2 * adcs.length) hnext
    refine ⟨(dioEntries ++ adcEntries) :: samples, ?_, by simp [hslen], ?_⟩
    · simp only [parseRecords, hstep1, hadc1, hs]
    · intro s hsmem
      rcases List.mem_cons.mp hsmem with rfl | hmem
      · exact ⟨dioEntries, adcEntries, rfl, hdkeys, hakeys, hdvals, havals⟩
      · exact hsprop s hmem

/-- **C2**: a sample payload with count byte `n` and mask bytes `s0 s1`
(whose record area is long enough) decodes to exactly `n` samples in
order; each sample is the digital entries for the enabled digital lines
(keyed `dio-<n>`, boolean) followed by the analog entries for the
enabled analog lines in ascending channel order (keyed `adc-<n>`,
integer), one entry per enabled line; each record consumes 2 bytes when
any digital line is enabled (else 0) plus 2 bytes per enabled analog
line. -/
theorem c2_sample_decoder (n s0 s1 : Nat) (rest : Bytes)
    (h : 3 + n * ((if dio_enabled s0 s1 = [] then 0 else 2) +
        2 * (adc_enabled s0).length) ≤ (n :: s0 :: s1 :: rest : Bytes).length) :
    ∃ samples, parse_samples (n :: s0 :: s1 :: rest) = .ok samples ∧
      samples.length = n ∧
      ∀ s ∈ samples, ∃ dpart apart, s = dpart ++ apart ∧
        dpart.map Prod.fst = (dio_enabled s0 s1).map (fun d => "dio-" ++ toString d) ∧
        apart.map Prod.fst = (adc_enabled s0).map (fun a => "adc-" ++ toString a) ∧
        (∀ e ∈ dpart, ∃ b, e.2 = IOVal.digital b) ∧
        (∀ e ∈ apart, ∃ v, e.2 = IOVal.analog v) := by
  have hps : parse_samples (n :: s0 :: s1 :: rest) =
      parseRecords (n :: s0 :: s1 :: rest) (dio_enabled s0 s1) (adc_enabled s0) n 3 := rfl
  rw [hps]
  exact parseRecords_ok _ _ _ n 3 (by omega)

/-- **C2 witness**: one sample with digital line 0 and analog line 0
enabled, from a record of exactly `2 + 2` bytes. -/
theorem c2_witness :
    ∃ samples, parse_samples [1, 2, 1, 0, 1, 3, 255] = .ok samples ∧
      samples.length = 1 ∧
      ∀ s ∈ samples, ∃ dpart apart, s = dpart ++ apart ∧
        dpart.map Prod.fst = (dio_enabled 2 1).map (fun d => "dio-" ++ toString d) ∧
        apart.map Prod.fst = (adc_enabled 2).map (fun a => "adc-" ++ toString a) ∧
        (∀ e ∈ dpart, ∃ b, e.2 = IOVal.digital b) ∧
        (∀ e ∈ apart, ∃ v, e.2 = IOVal.analog v) :=
  c2_sample_decoder 1 2 1 [0, 1, 3, 255] (by decide)

theorem ldiff_le (n m : Nat) : Nat.ldiff n m ≤ n := by
  apply Nat.le_of_testBit
  intro i h
  rw [Nat.testBit_ldiff] at h
  exact Bool.and_elim_left h

/-- Python's `s & 0x3FF` on an arbitrary (possibly negative) integer
always lands in `0 … 1023`. -/
theorem landRange (s : Int) : 0 ≤ Int.land s 1023 ∧ Int.land s 1023 ≤ 1023 := by
  cases s with
  | ofNat m =>
    simp only [Int.land]
    constructor
    · exact_mod_cast Nat.zero_le _
    · exact_mod_cast Nat.and_le_right
  | negSucc m =>
    simp only [Int.land]
    constructor
    · exact_mod_cast Nat.zero_le _
    · exact_mod_cast ldiff_le 1023 m

/-- **C9**: every analog entry produced by the ADC loop stores exactly
the two record bytes at its cursor position read as a big-endian signed
16-bit integer and masked with `& 0x3FF`, and the stored value always
lies in `0 … 1023`, regardless of the raw byte values. -/
theorem c9_adc_reading (data : Bytes) (adcs : List Nat) (pos : Nat)
    (entries : List (String × IOVal)) (pos' : Nat)
    (h : decodeAdcs data adcs pos = .ok (entries, pos')) :
    ∀ j a, adcs.get? j = some a →
      ∃ b0 b1, pySlice data (pos + 2 * j) 2 = [b0, b1] ∧
        entries.get? j = some ("adc-" ++ toString a, IOVal.analog (adcValue b0 b1)) ∧
        adcValue b0 b1 = Int.land (toSigned16 (b0 * 256 + b1)) 1023 ∧
        0 ≤ adcValue b0 b1 ∧ adcValue b0 b1 ≤ 1023 := by
  induction adcs generalizing pos entries pos' with
  | nil =>
    intro j a hj
    simp at hj
  | cons a0 rest ih =>
    intro j a hj
    rcases hsl : pySlice data pos 2 with _ | ⟨b0, _ | ⟨b1, _ | ⟨c, t⟩⟩⟩ <;>
      simp only [decodeAdcs, hsl] at h
    · cases h
    · cases h
    · rcases hrec : decodeAdcs data rest (pos + 2) with e | ⟨tail, p⟩ <;>
        rw [hrec] at h
      · cases h
      · simp only [Except.ok.injEq, Prod.mk.injEq] at h
        obtain ⟨hent, hpos⟩ := h
        subst hent
        cases j with
        | zero =>
          simp only [List.get?] at hj
          obtain rfl : a0 = a := by injection hj
          refine ⟨b0, b1, by simpa using hsl, rfl, rfl, ?_⟩
          exact landRange (toSigned16 (b0 * 256 + b1))
        | succ j' =>
          simp only [List.get?] at hj
          obtain ⟨c0, c1, hsl', hget, heq, hrange⟩ := ih (pos + 2) tail p hrec j' a hj
          refine ⟨c0, c1, ?_, hget, heq, hrange⟩
          have harith : pos + 2 + 2 * j' = pos + 2 * (j' + 1) := by ring
          rw [harith] at hsl'
          exact hsl'
    · cases h

/-- **C9 witness**: the record bytes `FF FF` (signed value `-1`) decode
to the masked reading `1023`. -/
theorem c9_witness :
    ∃ b0 b1, pySlice [255, 255] (0 + 2 * 0) 2 = [b0, b1] ∧
      ([("adc-" ++ toString 0, IOVal.analog (adcValue 255 255))] :
          List (String × IOVal)).get? 0 =
        some ("adc-" ++ toString 0, IOVal.analog (adcValue b0 b1)) ∧
      adcValue b0 b1 = Int.land (toSigned16 (b0 * 256 + b1)) 1023 ∧
      0 ≤ adcValue b0 b1 ∧ adcValue b0 b1 ≤ 1023 :=
  c9_adc_reading [255, 255] [0] 0
    [("adc-" ++ toString 0, IOVal.analog (adcValue 255 255))] 2 rfl 0 0 rfl

end XBee1
